import Mathlib

/-!
Shallow embedding of the Swift temporary-URL issuance subsystem of
`ironic/common/glance_service/v2/image_service.py`
(class `GlanceImageService`).

Strings are modelled as `List Char`.  Following Python truthiness, a config
string that is empty means "unset".  The process-wide temp-URL cache (a dict
from image id to a `(url, url_expires_at)` pair) is modelled as an
association list.  External collaborators (the Swift signing primitive
`swiftclient.utils.generate_temp_url`, the service-catalog endpoint lookup,
the auth project id, the account-metadata key, and
`oslo_utils.uuidutils.is_uuid_like`) are supplied through an `Env` record,
as in spec section 6 they are outside this core.
-/

namespace Ironic

/-- The exceptions `swift_temp_url` can raise: `InvalidParameterValue`
(the spec's ConfigurationError), `ImageUnacceptable` (ObjectUnacceptable)
and `MissingParameterValue` (MissingCredential). -/
inductive Err where
  | invalidParameterValue
  | imageUnacceptable
  | missingParameterValue
deriving DecidableEq

/-- One cached temp URL: the `TempUrlCacheElement` namedtuple
`(url, url_expires_at)`. -/
structure Entry where
  url : List Char
  expiresAt : Int
deriving DecidableEq

/-- The class-level `_cache` dict, as an association list keyed by image id. -/
abbrev Cache := List (List Char × Entry)

/-- Dict lookup `self._cache[image_id]` (with `image_id in self._cache`). -/
def cacheLookup (c : Cache) (k : List Char) : Option Entry :=
  (c.find? fun p => decide (p.1 = k)).map Prod.snd

/-- `_remove_expired_items_from_cache`: delete every entry whose
`url_expires_at` is less than `int(time.time()) + expected_download_start_delay`,
i.e. keep exactly the entries with `now + delay <= url_expires_at`. -/
def evictExpired (now delay : Int) (c : Cache) : Cache :=
  c.filter fun p => decide (now + delay ≤ p.2.expiresAt)

/-- Dict assignment `self._cache[image_id] = TempUrlCacheElement(...)`:
replaces any entry with the same key. -/
def cacheStore (k : List Char) (e : Entry) (c : Cache) : Cache :=
  (c.filter fun p => decide (p.1 ≠ k)) ++ [(k, e)]

/-- Output of the external signing primitive
`swiftclient.utils.generate_temp_url`: the path-with-query it returns, and
the integer value of its `temp_url_expires` query parameter (the code
recovers the latter with `urlparse`/`parse_qsl`/`int`). -/
structure SignedOut where
  path : List Char
  tempUrlExpires : Int
deriving DecidableEq

/-- The `CONF.glance` options consumed by this core.  Empty lists model
unset (falsy) string options. -/
structure Conf where
  cacheEnabled : Bool       -- swift_temp_url_cache_enabled
  duration : Int            -- swift_temp_url_duration
  startDelay : Int          -- swift_temp_url_expected_download_start_delay
  seed : Int                -- swift_store_multiple_containers_seed
  container : List Char     -- swift_container
  apiVersion : List Char    -- swift_api_version
  account : List Char       -- swift_account
  endpointUrl : List Char   -- swift_endpoint_url
  tempUrlKey : List Char    -- swift_temp_url_key
deriving DecidableEq

/-- The external collaborators and the clock. -/
structure Env where
  now : Int                                              -- int(time.time())
  catalogEndpoint : List Char                            -- adapter.get_endpoint()
  projectId : List Char                                  -- auth_ref.project_id
  accountKey : List Char                                 -- head_account() temp-url key
  sign : List Char → Int → List Char → List Char → SignedOut
  isUuidLike : List Char → Bool                          -- uuidutils.is_uuid_like

/-- The Glance image metadata dict, reduced to its optional `id` field. -/
structure ImageInfo where
  id : Option (List Char)

instance {ε α : Type} [DecidableEq ε] [DecidableEq α] :
    DecidableEq (Except ε α) := fun x y =>
  match x, y with
  | Except.ok a, Except.ok b =>
    match decEq a b with
    | isTrue h => isTrue (h ▸ rfl)
    | isFalse h => isFalse fun hc => h (by cases hc; rfl)
  | Except.ok _, Except.error _ => isFalse fun hc => Except.noConfusion hc
  | Except.error _, Except.ok _ => isFalse fun hc => Except.noConfusion hc
  | Except.error e, Except.error f =>
    match decEq e f with
    | isTrue h => isTrue (h ▸ rfl)
    | isFalse h => isFalse fun hc => h (by cases hc; rfl)

/-- Observable outcome of one call: the returned URL or raised exception,
the cache afterwards, and whether the signing primitive was invoked. -/
structure StepOut where
  result : Except Err (List Char)
  cache : Cache
  signCalled : Bool
deriving DecidableEq

/-- `_validate_temp_url_config`: duration at least the expected download
start delay, and the multiple-containers seed within `[0, 32]`. -/
def validateTempUrlConfig (conf : Conf) : Option Err :=
  if conf.duration < conf.startDelay then some Err.invalidParameterValue
  else if conf.seed < 0 ∨ 32 < conf.seed then some Err.invalidParameterValue
  else none

/-- `_get_swift_container`: in multiple-container mode (seed > 0) lowercase
the image id, count the dashes among its first `seed` characters, and append
the first `seed + dashes` characters to `swift_container` joined by `_`;
in single-container mode return `swift_container`. -/
def getSwiftContainer (conf : Conf) (imageId : List Char) : List Char :=
  if 0 < conf.seed then
    let lowered := imageId.map Char.toLower
    let numDashes := (lowered.take conf.seed.toNat).count '-'
    let numChars := conf.seed.toNat + numDashes
    conf.container ++ '_' :: lowered.take numChars
  else conf.container

/-- The substitution `re.sub('/v1/AUTH_[^/]+/?$', '', endpoint_url)`: if the
endpoint ends (after an optional final slash) in a slash-free run of the
shape `AUTH_<tenant>` with nonempty tenant, preceded by `/v1/`, drop that
whole trailing `/v1/AUTH_<tenant>[/]` segment, else keep the string. -/
def stripTenantSuffix (cs : List Char) : List Char :=
  let cs1 := if cs.getLast? = some '/' then cs.dropLast else cs
  let r := cs1.reverse
  let run := r.takeWhile fun c => decide (c ≠ '/')
  let rest := r.dropWhile fun c => decide (c ≠ '/')
  if 5 < run.length ∧ run.reverse.take 5 = "AUTH_".data ∧
      rest.take 4 = ['/', '1', 'v', '/'] then
    (rest.drop 4).reverse
  else cs

/-- `_generate_temp_url`: with caching enabled, first evict expired entries
and return a cached URL on hit; otherwise invoke the signing primitive,
prepend the endpoint, and (with caching enabled) store the new entry with
the expiry parsed out of the signed query string. -/
def generateTempUrl (env : Env) (conf : Conf) (path : List Char)
    (seconds : Int) (key : List Char) (method : List Char)
    (endpoint : List Char) (imageId : List Char) (cache : Cache) : StepOut :=
  if conf.cacheEnabled then
    let cache1 := evictExpired env.now conf.startDelay cache
    match cacheLookup cache1 imageId with
    | some e => ⟨Except.ok e.url, cache1, false⟩
    | none =>
      let sp := env.sign path seconds key method
      let tempUrl := endpoint ++ sp.path
      ⟨Except.ok tempUrl, cacheStore imageId ⟨tempUrl, sp.tempUrlExpires⟩ cache1, true⟩
  else
    let sp := env.sign path seconds key method
    ⟨Except.ok (endpoint ++ sp.path), cache, true⟩

/-- `swift_temp_url`: validate the config, reject image info without a
UUID-like id, resolve the endpoint (config value or service catalog, then
strip a trailing `/v1/AUTH_<tenant>`), resolve account and temp-url key
(config values or backend lookups), build
`/{api_version}/{account}/{container}/{object_id}` and delegate to
`_generate_temp_url`. -/
def swiftTempUrl (env : Env) (conf : Conf) (info : ImageInfo)
    (cache : Cache) : StepOut :=
  match validateTempUrlConfig conf with
  | some e => ⟨Except.error e, cache, false⟩
  | none =>
    match info.id with
    | none => ⟨Except.error Err.imageUnacceptable, cache, false⟩
    | some imageId =>
      if env.isUuidLike imageId = false then
        ⟨Except.error Err.imageUnacceptable, cache, false⟩
      else
        let container := getSwiftContainer conf imageId
        let endpointUrl0 :=
          if conf.endpointUrl = [] then env.catalogEndpoint else conf.endpointUrl
        if endpointUrl0 = [] then
          ⟨Except.error Err.missingParameterValue, cache, false⟩
        else
          let endpointUrl := stripTenantSuffix endpointUrl0
          let account :=
            if conf.account = [] then "AUTH_".data ++ env.projectId else conf.account
          let key :=
            if conf.tempUrlKey = [] then env.accountKey else conf.tempUrlKey
          if key = [] then
            ⟨Except.error Err.missingParameterValue, cache, false⟩
          else
            let urlPath := '/' :: conf.apiVersion ++ '/' :: account ++
              '/' :: container ++ '/' :: imageId
            generateTempUrl env conf urlPath conf.duration key "GET".data
              endpointUrl imageId cache

/-- Container resolver stated in the words of spec section 4.2, for
comparison with `getSwiftContainer`: with seed length 0 return the base
name; otherwise lowercase the identifier, take its first `seedLength`
characters, count the separator characters in that window, and append the
first `seedLength + count` characters of the lowercased identifier to the
base name joined by an underscore. -/
def specResolveContainer (baseName : List Char) (seedLength : Int)
    (objectId : List Char) : List Char :=
  if seedLength = 0 then baseName
  else
    let lowered := objectId.map Char.toLower
    let window := lowered.take seedLength.toNat
    let sepCount := window.count '-'
    baseName ++ '_' :: lowered.take (seedLength.toNat + sepCount)

/-- Concrete environment for witnesses: the signing primitive embeds the
expiry `now + seconds` in its output, as the Swift helper does, every image
id counts as UUID-like, and neither a catalog endpoint nor an
account-metadata key is available. -/
def envA : Env :=
  ⟨1000, [], "p".data, [],
    fun pa s _ _ => ⟨pa ++ "?q".data, 1000 + s⟩, fun _ => true⟩

/-- Concrete cache-enabled configuration with all strings set. -/
def confA : Conf :=
  ⟨true, 600, 60, 0, "c".data, "v1".data, "acct".data, "http://e".data, "k".data⟩

/-- Configuration whose duration is below the expected start delay. -/
def confShort : Conf :=
  ⟨true, 10, 60, 0, "c".data, "v1".data, "acct".data, "http://e".data, "k".data⟩

/-- Configuration with no endpoint URL set. -/
def confNoEndpoint : Conf :=
  ⟨true, 600, 60, 0, "c".data, "v1".data, "acct".data, [], "k".data⟩

/-- Configuration with no temp-URL key set. -/
def confNoKey : Conf :=
  ⟨true, 600, 60, 0, "c".data, "v1".data, "acct".data, "http://e".data, []⟩

/-- Configuration in multiple-container mode with seed 3. -/
def confSeed3 : Conf :=
  ⟨true, 600, 60, 3, "glance".data, "v1".data, "acct".data, "http://e".data, "k".data⟩

/-- Configuration in multiple-container mode with seed 4. -/
def confSeed4 : Conf :=
  ⟨true, 600, 60, 4, "base".data, "v1".data, "acct".data, "http://e".data, "k".data⟩

/-- Configuration in multiple-container mode with seed 2. -/
def confSeed2 : Conf :=
  ⟨true, 600, 60, 2, "c".data, "v1".data, "acct".data, "http://e".data, "k".data⟩

/-- Configuration with seed -1, outside the validated range. -/
def confSeedNeg : Conf :=
  ⟨true, 600, 60, -1, "c".data, "v1".data, "acct".data, "http://e".data, "k".data⟩

/-- Configuration with seed 33, outside the validated range. -/
def confSeed33 : Conf :=
  ⟨true, 600, 60, 33, "c".data, "v1".data, "acct".data, "http://e".data, "k".data⟩

theorem keyUnique {c : Cache} (hnodup : (c.map Prod.fst).Nodup)
    {p q : List Char × Entry} (hp : p ∈ c) (hq : q ∈ c) (hk : p.1 = q.1) :
    p = q := by
  induction c with
  | nil => cases hp
  | cons a t ih =>
    rw [List.map_cons, List.nodup_cons] at hnodup
    cases hp with
    | head =>
      cases hq with
      | head => rfl
      | tail _ hq2 =>
        exact absurd (hk ▸ List.mem_map_of_mem Prod.fst hq2) hnodup.1
    | tail _ hp2 =>
      cases hq with
      | head =>
        exact absurd (hk ▸ List.mem_map_of_mem Prod.fst hp2) hnodup.1
      | tail _ hq2 => exact ih hnodup.2 hp2 hq2

theorem find?_filter_first {α : Type} (p q : α → Bool) (l : List α) (x : α)
    (h : l.find? p = some x) (hq : q x = true) :
    (l.filter q).find? p = some x := by
  induction l with
  | nil => simp at h
  | cons a t ih =>
    by_cases hp : p a
    · rw [List.find?_cons_of_pos _ hp] at h
      injection h with h
      subst h
      rw [List.filter_cons_of_pos hq]
      exact List.find?_cons_of_pos _ hp
    · rw [List.find?_cons_of_neg _ hp] at h
      by_cases hqa : q a
      · rw [List.filter_cons_of_pos hqa, List.find?_cons_of_neg _ hp]
        exact ih h
      · rw [List.filter_cons_of_neg (by simpa using hqa)]
        exact ih h

theorem lookup_evict_live (now delay : Int) (c : Cache) (k : List Char)
    (e : Entry) (he : cacheLookup c k = some e)
    (hlive : now + delay ≤ e.expiresAt) :
    cacheLookup (evictExpired now delay c) k = some e := by
  unfold cacheLookup at he ⊢
  unfold evictExpired
  cases hf : c.find? (fun p => decide (p.1 = k)) with
  | none => rw [hf] at he; cases he
  | some pr =>
    rw [hf] at he
    simp only [Option.map_some'] at he
    rw [Option.some_inj] at he
    rw [find?_filter_first _ _ c pr hf (by rw [he]; exact decide_eq_true hlive)]
    simp [he]

theorem lookup_evict_stale (now delay : Int) (c : Cache) (k : List Char)
    (e : Entry) (hnodup : (c.map Prod.fst).Nodup)
    (he : cacheLookup c k = some e)
    (hstale : e.expiresAt < now + delay) :
    cacheLookup (evictExpired now delay c) k = none := by
  unfold cacheLookup at he ⊢
  unfold evictExpired
  cases hf : c.find? (fun p => decide (p.1 = k)) with
  | none => rw [hf] at he; cases he
  | some pr =>
    rw [hf] at he
    simp only [Option.map_some'] at he
    rw [Option.some_inj] at he
    have hfp := List.find?_some hf
    simp only [decide_eq_true_eq] at hfp
    have hk : pr.1 = k := hfp
    have hmem : pr ∈ c := List.mem_of_find?_eq_some hf
    have hfind : (c.filter fun p => decide (now + delay ≤ p.2.expiresAt)).find?
        (fun p => decide (p.1 = k)) = none := by
      rw [List.find?_eq_none]
      intro x hx hdx
      obtain ⟨hxc, hxq⟩ := List.mem_filter.mp hx
      have hx1 : x.1 = k := of_decide_eq_true hdx
      have hxe : x = pr := keyUnique hnodup hxc hmem (hx1.trans hk.symm)
      have : now + delay ≤ e.expiresAt := by
        rw [← he, ← hxe]; exact of_decide_eq_true hxq
      omega
    rw [hfind]
    rfl

theorem lookup_store_self (k : List Char) (v : Entry) (c : Cache) :
    cacheLookup (cacheStore k v c) k = some v := by
  unfold cacheLookup cacheStore
  rw [List.find?_append]
  have h1 : (c.filter fun p => decide (p.1 ≠ k)).find?
      (fun p => decide (p.1 = k)) = none := by
    rw [List.find?_eq_none]
    intro x hx hdx
    have hne := of_decide_eq_true (List.mem_filter.mp hx).2
    exact hne (of_decide_eq_true hdx)
  rw [h1]
  simp

theorem generateTempUrl_result_ok (env : Env) (conf : Conf)
    (path : List Char) (seconds : Int) (key method endpoint imageId : List Char)
    (cache : Cache) :
    ∃ u, (generateTempUrl env conf path seconds key method endpoint
      imageId cache).result = Except.ok u := by
  unfold generateTempUrl
  by_cases hc : conf.cacheEnabled = true
  · simp only [hc, if_true]
    cases hl : cacheLookup (evictExpired env.now conf.startDelay cache) imageId with
    | some e => simp only [hl]; exact ⟨e.url, rfl⟩
    | none => simp only [hl]; exact ⟨_, rfl⟩
  · simp only [hc, if_false]
    exact ⟨_, rfl⟩

theorem validate_none_iff (conf : Conf) :
    validateTempUrlConfig conf = none ↔
      conf.startDelay ≤ conf.duration ∧ 0 ≤ conf.seed ∧ conf.seed ≤ 32 := by
  unfold validateTempUrlConfig
  by_cases h1 : conf.duration < conf.startDelay
  · rw [if_pos h1]; constructor
    · intro h; cases h
    · intro h; omega
  · rw [if_neg h1]
    by_cases h2 : conf.seed < 0 ∨ 32 < conf.seed
    · rw [if_pos h2]; constructor
      · intro h; cases h
      · intro h; omega
    · rw [if_neg h2]; constructor
      · intro _; omega
      · intro _; rfl

theorem mem_evict (now delay : Int) (c : Cache)
    {pr : List Char × Entry} (h : pr ∈ evictExpired now delay c) :
    now + delay ≤ pr.2.expiresAt :=
  of_decide_eq_true (List.mem_filter.mp h).2

theorem length_filter_ne_dash (m : List Char) :
    (m.filter fun c => decide (c ≠ '-')).length + m.count '-' = m.length := by
  induction m with
  | nil => rfl
  | cons a t ih =>
    by_cases h : a = '-'
    · subst h
      rw [List.filter_cons_of_neg (by simp), List.count_cons]
      simp only [beq_self_eq_true, if_true, List.length_cons]
      omega
    · rw [List.filter_cons_of_pos (by simp [h]), List.count_cons,
        if_neg (by simp [h])]
      simp only [List.length_cons]
      omega

/-- C2: `_get_swift_container` agrees with the container resolver of spec
section 4.2 for every object identifier and every seed length in the
validated range: seed 0 returns the base container name unchanged, and a
positive seed appends, joined by an underscore, the first
`seed + (dashes among the first seed characters)` characters of the
lowercased identifier. -/
theorem getSwiftContainer_matches_spec (conf : Conf) (objectId : List Char)
    (h : 0 ≤ conf.seed) :
    getSwiftContainer conf objectId =
      specResolveContainer conf.container conf.seed objectId := by
  unfold getSwiftContainer specResolveContainer
  by_cases h0 : conf.seed = 0
  · rw [if_neg (by omega), if_pos h0]
  · rw [if_pos (by omega : (0:Int) < conf.seed), if_neg h0]

/-- Witness for C2 at the spec's two concrete examples. -/
theorem getSwiftContainer_matches_spec_witness :
    ((0:Int) ≤ confSeed3.seed ∧
      getSwiftContainer confSeed3 "3a1bcd-ef01-4567-89ab-cdef01234567".data =
        specResolveContainer confSeed3.container confSeed3.seed
          "3a1bcd-ef01-4567-89ab-cdef01234567".data) ∧
    getSwiftContainer confSeed3 "3a1bcd-ef01-4567-89ab-cdef01234567".data =
      "glance_3a1".data ∧
    getSwiftContainer confSeed4 "ab-cdef0-1234-5678-9abc-def012345678".data =
      "base_ab-cd".data :=
  ⟨⟨by decide, getSwiftContainer_matches_spec confSeed3 _ (by decide)⟩,
    by decide, by decide⟩

/-- C3 fails as stated: with seed 2 and identifier `a--b` (length 4, so at
least the seed length), the extension characters are themselves dashes, the
appended suffix is `a--`, and it contains one non-dash character, not two. -/
theorem getSwiftContainer_seed_count_counterexample :
    ((1:Int) ≤ confSeed2.seed ∧ confSeed2.seed ≤ 32 ∧
      confSeed2.seed.toNat ≤ "a--b".data.length) ∧
    ¬(((getSwiftContainer confSeed2 "a--b".data).drop
        (confSeed2.container.length + 1)).filter
      (fun c => decide (c ≠ '-'))).length = confSeed2.seed.toNat := by decide

/-- C3 (amended): for a seed in `[1, 32]`, the suffix appended to the base
name contains exactly `seed` non-dash characters provided the lowercased
identifier has at least `seed + count` characters and none of the `count`
window-extension characters (positions `seed` to `seed + count - 1`) is
itself a dash, where `count` is the number of dashes among the first `seed`
characters. -/
theorem getSwiftContainer_nonseparator_count (conf : Conf)
    (objectId : List Char) (h1 : 1 ≤ conf.seed) (h2 : conf.seed ≤ 32)
    (hlen : conf.seed.toNat +
        ((objectId.map Char.toLower).take conf.seed.toNat).count '-'
      ≤ objectId.length)
    (hext : (((objectId.map Char.toLower).drop conf.seed.toNat).take
        (((objectId.map Char.toLower).take conf.seed.toNat).count '-')).count
      '-' = 0) :
    (((getSwiftContainer conf objectId).drop
        (conf.container.length + 1)).filter
      (fun c => decide (c ≠ '-'))).length = conf.seed.toNat := by
  have hpos : (0:Int) < conf.seed := by omega
  simp only [getSwiftContainer]
  rw [if_pos hpos]
  set l := objectId.map Char.toLower with hldef
  set s := conf.seed.toNat with hsdef
  set d := (l.take s).count '-' with hddef
  have hlenl : l.length = objectId.length := List.length_map _ _
  have hlen2 : s + d ≤ l.length := by omega
  have hdrop : (conf.container ++ '_' :: l.take (s + d)).drop
      (conf.container.length + 1) = l.take (s + d) := by
    have h3 : conf.container ++ '_' :: l.take (s + d) =
        (conf.container ++ ['_']) ++ l.take (s + d) := by simp
    rw [h3, List.drop_left' (by simp)]
  rw [hdrop, List.take_add, List.filter_append, List.length_append]
  have hfin1 := length_filter_ne_dash (l.take s)
  have hfin2 := length_filter_ne_dash ((l.drop s).take d)
  have hlen_take : (l.take s).length = s := by
    rw [List.length_take]; omega
  have hlen_take2 : ((l.drop s).take d).length = d := by
    rw [List.length_take, List.length_drop]; omega
  have hdle : d ≤ s := hlen_take ▸ List.count_le_length '-' (l.take s)
  omega

/-- Witness for C3 (amended) at seed 3 and identifier `3a1bcd-ef01...`. -/
theorem getSwiftContainer_nonseparator_count_witness :
    (((getSwiftContainer confSeed3 "3a1bcd-ef01-4567-89ab-cdef01234567".data).drop
        (confSeed3.container.length + 1)).filter
      (fun c => decide (c ≠ '-'))).length = confSeed3.seed.toNat :=
  getSwiftContainer_nonseparator_count confSeed3 _
    (by decide) (by decide) (by decide) (by decide)

theorem generateTempUrl_result_ne_error (env : Env) (conf : Conf)
    (path : List Char) (seconds : Int)
    (key method endpoint imageId : List Char) (cache : Cache) (e : Err) :
    (generateTempUrl env conf path seconds key method endpoint imageId
      cache).result ≠ Except.error e := by
  obtain ⟨u, hu⟩ :=
    generateTempUrl_result_ok env conf path seconds key method endpoint
      imageId cache
  rw [hu]
  intro h
  cases h

theorem swiftTempUrl_eq_of_validate_error (env : Env) (conf : Conf)
    (info : ImageInfo) (cache : Cache) (err : Err)
    (hv : validateTempUrlConfig conf = some err) :
    swiftTempUrl env conf info cache = ⟨Except.error err, cache, false⟩ := by
  unfold swiftTempUrl
  rw [hv]

theorem swiftTempUrl_eq_of_no_id (env : Env) (conf : Conf)
    (info : ImageInfo) (cache : Cache)
    (hv : validateTempUrlConfig conf = none) (hid : info.id = none) :
    swiftTempUrl env conf info cache =
      ⟨Except.error Err.imageUnacceptable, cache, false⟩ := by
  unfold swiftTempUrl
  rw [hv, hid]

theorem swiftTempUrl_eq_of_bad_uuid (env : Env) (conf : Conf)
    (info : ImageInfo) (cache : Cache) (imageId : List Char)
    (hv : validateTempUrlConfig conf = none)
    (hid : info.id = some imageId)
    (hu : env.isUuidLike imageId = false) :
    swiftTempUrl env conf info cache =
      ⟨Except.error Err.imageUnacceptable, cache, false⟩ := by
  simp only [swiftTempUrl, hv, hid]
  rw [if_pos hu]

theorem swiftTempUrl_eq_of_no_endpoint (env : Env) (conf : Conf)
    (info : ImageInfo) (cache : Cache) (imageId : List Char)
    (hv : validateTempUrlConfig conf = none)
    (hid : info.id = some imageId)
    (huuid : env.isUuidLike imageId = true)
    (hep : (if conf.endpointUrl = [] then env.catalogEndpoint
      else conf.endpointUrl) = []) :
    swiftTempUrl env conf info cache =
      ⟨Except.error Err.missingParameterValue, cache, false⟩ := by
  have hu2 : ¬ (env.isUuidLike imageId = false) := by
    rw [huuid]
    exact fun h => by cases h
  simp only [swiftTempUrl, hv, hid]
  rw [if_neg hu2, if_pos hep]

theorem swiftTempUrl_eq_of_no_key (env : Env) (conf : Conf)
    (info : ImageInfo) (cache : Cache) (imageId : List Char)
    (hv : validateTempUrlConfig conf = none)
    (hid : info.id = some imageId)
    (huuid : env.isUuidLike imageId = true)
    (hep : (if conf.endpointUrl = [] then env.catalogEndpoint
      else conf.endpointUrl) ≠ [])
    (hk : (if conf.tempUrlKey = [] then env.accountKey
      else conf.tempUrlKey) = []) :
    swiftTempUrl env conf info cache =
      ⟨Except.error Err.missingParameterValue, cache, false⟩ := by
  have hu2 : ¬ (env.isUuidLike imageId = false) := by
    rw [huuid]
    exact fun h => by cases h
  simp only [swiftTempUrl, hv, hid]
  rw [if_neg hu2, if_neg hep, if_pos hk]

theorem swiftTempUrl_eq_generate (env : Env) (conf : Conf)
    (info : ImageInfo) (cache : Cache) (imageId : List Char)
    (hv : validateTempUrlConfig conf = none)
    (hid : info.id = some imageId)
    (huuid : env.isUuidLike imageId = true)
    (hep : (if conf.endpointUrl = [] then env.catalogEndpoint
      else conf.endpointUrl) ≠ [])
    (hk : (if conf.tempUrlKey = [] then env.accountKey
      else conf.tempUrlKey) ≠ []) :
    swiftTempUrl env conf info cache =
      generateTempUrl env conf
        ('/' :: conf.apiVersion ++ '/' ::
          (if conf.account = [] then "AUTH_".data ++ env.projectId
            else conf.account) ++
          '/' :: getSwiftContainer conf imageId ++ '/' :: imageId)
        conf.duration
        (if conf.tempUrlKey = [] then env.accountKey else conf.tempUrlKey)
        "GET".data
        (stripTenantSuffix (if conf.endpointUrl = [] then env.catalogEndpoint
          else conf.endpointUrl))
        imageId cache := by
  have hu2 : ¬ (env.isUuidLike imageId = false) := by
    rw [huuid]
    exact fun h => by cases h
  simp only [swiftTempUrl, hv, hid]
  rw [if_neg hu2, if_neg hep, if_neg hk]

/-- C8: whenever `swift_temp_url` raises (`InvalidParameterValue`,
`ImageUnacceptable` or `MissingParameterValue`), the error occurs before the
signing primitive is invoked and before any cache mutation: the cache after
a failing call is exactly the cache before it, so every cached entry stems
from a fully successful issuance. -/
theorem swiftTempUrl_error_no_mutation (env : Env) (conf : Conf)
    (info : ImageInfo) (cache : Cache) (e : Err)
    (herr : (swiftTempUrl env conf info cache).result = Except.error e) :
    (swiftTempUrl env conf info cache).cache = cache ∧
    (swiftTempUrl env conf info cache).signCalled = false := by
  cases hv : validateTempUrlConfig conf with
  | some err =>
    rw [swiftTempUrl_eq_of_validate_error env conf info cache err hv]
    exact ⟨rfl, rfl⟩
  | none =>
    cases hid : info.id with
    | none =>
      rw [swiftTempUrl_eq_of_no_id env conf info cache hv hid]
      exact ⟨rfl, rfl⟩
    | some imageId =>
      cases hb : env.isUuidLike imageId with
      | false =>
        rw [swiftTempUrl_eq_of_bad_uuid env conf info cache imageId hv hid hb]
        exact ⟨rfl, rfl⟩
      | true =>
        by_cases hep : (if conf.endpointUrl = [] then env.catalogEndpoint
            else conf.endpointUrl) = []
        · rw [swiftTempUrl_eq_of_no_endpoint env conf info cache imageId
            hv hid hb hep]
          exact ⟨rfl, rfl⟩
        · by_cases hk : (if conf.tempUrlKey = [] then env.accountKey
              else conf.tempUrlKey) = []
          · rw [swiftTempUrl_eq_of_no_key env conf info cache imageId
              hv hid hb hep hk]
            exact ⟨rfl, rfl⟩
          · exfalso
            rw [swiftTempUrl_eq_generate env conf info cache imageId
              hv hid hb hep hk] at herr
            exact generateTempUrl_result_ne_error _ _ _ _ _ _ _ _ _ _ herr

/-- Witness for C8 at a call failing configuration validation. -/
theorem swiftTempUrl_error_no_mutation_witness :
    (swiftTempUrl envA confShort ⟨some "i".data⟩
        [("i".data, ⟨"u".data, 1060⟩)]).cache =
      [("i".data, ⟨"u".data, 1060⟩)] ∧
    (swiftTempUrl envA confShort ⟨some "i".data⟩
        [("i".data, ⟨"u".data, 1060⟩)]).signCalled = false :=
  swiftTempUrl_error_no_mutation envA confShort ⟨some "i".data⟩
    [("i".data, ⟨"u".data, 1060⟩)] Err.invalidParameterValue (by decide)

/-- C6: `swift_temp_url` raises `InvalidParameterValue` (the spec's
ConfigurationError), before any signing attempt, whenever the URL duration
is below the expected download start delay or the container seed lies
outside `[0, 32]`, regardless of all other inputs; and it never raises that
error when both invariants hold. -/
theorem swiftTempUrl_config_validation (env : Env) (conf : Conf)
    (info : ImageInfo) (cache : Cache) :
    ((conf.duration < conf.startDelay ∨ conf.seed < 0 ∨ 32 < conf.seed) →
      (swiftTempUrl env conf info cache).result =
        Except.error Err.invalidParameterValue ∧
      (swiftTempUrl env conf info cache).signCalled = false) ∧
    (conf.startDelay ≤ conf.duration → 0 ≤ conf.seed → conf.seed ≤ 32 →
      (swiftTempUrl env conf info cache).result ≠
        Except.error Err.invalidParameterValue) := by
  constructor
  · intro hbad
    have hv : validateTempUrlConfig conf = some Err.invalidParameterValue := by
      unfold validateTempUrlConfig
      by_cases h1 : conf.duration < conf.startDelay
      · rw [if_pos h1]
      · rw [if_neg h1, if_pos (by omega)]
    rw [swiftTempUrl_eq_of_validate_error env conf info cache _ hv]
    exact ⟨rfl, rfl⟩
  · intro hd hs1 hs2
    have hv : validateTempUrlConfig conf = none :=
      (validate_none_iff conf).mpr ⟨hd, hs1, hs2⟩
    cases hid : info.id with
    | none =>
      rw [swiftTempUrl_eq_of_no_id env conf info cache hv hid]
      exact fun h => Err.noConfusion (Except.error.inj h)
    | some imageId =>
      cases hb : env.isUuidLike imageId with
      | false =>
        rw [swiftTempUrl_eq_of_bad_uuid env conf info cache imageId hv hid hb]
        exact fun h => Err.noConfusion (Except.error.inj h)
      | true =>
        by_cases hep : (if conf.endpointUrl = [] then env.catalogEndpoint
            else conf.endpointUrl) = []
        · rw [swiftTempUrl_eq_of_no_endpoint env conf info cache imageId
            hv hid hb hep]
          exact fun h => Err.noConfusion (Except.error.inj h)
        · by_cases hk : (if conf.tempUrlKey = [] then env.accountKey
              else conf.tempUrlKey) = []
          · rw [swiftTempUrl_eq_of_no_key env conf info cache imageId
              hv hid hb hep hk]
            exact fun h => Err.noConfusion (Except.error.inj h)
          · rw [swiftTempUrl_eq_generate env conf info cache imageId
              hv hid hb hep hk]
            exact generateTempUrl_result_ne_error _ _ _ _ _ _ _ _ _ _

/-- Witness for C6: a too-short duration, seed -1 and seed 33 each raise
`InvalidParameterValue` with no signing, and a valid configuration does not
raise it. -/
theorem swiftTempUrl_config_validation_witness :
    ((swiftTempUrl envA confShort ⟨some "i".data⟩ []).result =
        Except.error Err.invalidParameterValue ∧
      (swiftTempUrl envA confShort ⟨some "i".data⟩ []).signCalled = false) ∧
    ((swiftTempUrl envA confSeedNeg ⟨some "i".data⟩ []).result =
        Except.error Err.invalidParameterValue ∧
      (swiftTempUrl envA confSeedNeg ⟨some "i".data⟩ []).signCalled = false) ∧
    ((swiftTempUrl envA confSeed33 ⟨some "i".data⟩ []).result =
        Except.error Err.invalidParameterValue ∧
      (swiftTempUrl envA confSeed33 ⟨some "i".data⟩ []).signCalled = false) ∧
    (swiftTempUrl envA confA ⟨some "i".data⟩ []).result ≠
      Except.error Err.invalidParameterValue :=
  ⟨(swiftTempUrl_config_validation envA confShort ⟨some "i".data⟩ []).1
      (by decide),
   (swiftTempUrl_config_validation envA confSeedNeg ⟨some "i".data⟩ []).1
      (by decide),
   (swiftTempUrl_config_validation envA confSeed33 ⟨some "i".data⟩ []).1
      (by decide),
   (swiftTempUrl_config_validation envA confA ⟨some "i".data⟩ []).2
      (by decide) (by decide) (by decide)⟩

/-- C9: once configuration validation passes, `swift_temp_url` raises
`ImageUnacceptable` exactly when the image info has no `id` or its id is
not UUID-like, and this happens before any signing attempt. -/
theorem swiftTempUrl_image_unacceptable (env : Env) (conf : Conf)
    (info : ImageInfo) (cache : Cache)
    (hval : validateTempUrlConfig conf = none) :
    ((swiftTempUrl env conf info cache).result =
        Except.error Err.imageUnacceptable ↔
      ∀ i, info.id = some i → env.isUuidLike i = false) ∧
    ((swiftTempUrl env conf info cache).result =
        Except.error Err.imageUnacceptable →
      (swiftTempUrl env conf info cache).signCalled = false) := by
  cases hid : info.id with
  | none =>
    rw [swiftTempUrl_eq_of_no_id env conf info cache hval hid]
    refine ⟨⟨fun _ i hi => ?_, fun _ => rfl⟩, fun _ => rfl⟩
    cases hi
  | some imageId =>
    cases hb : env.isUuidLike imageId with
    | false =>
      rw [swiftTempUrl_eq_of_bad_uuid env conf info cache imageId hval hid hb]
      refine ⟨⟨fun _ i hi => ?_, fun _ => rfl⟩, fun _ => rfl⟩
      cases hi
      exact hb
    | true =>
      have hne : (swiftTempUrl env conf info cache).result ≠
          Except.error Err.imageUnacceptable := by
        by_cases hep : (if conf.endpointUrl = [] then env.catalogEndpoint
            else conf.endpointUrl) = []
        · rw [swiftTempUrl_eq_of_no_endpoint env conf info cache imageId
            hval hid hb hep]
          exact fun h => Err.noConfusion (Except.error.inj h)
        · by_cases hk : (if conf.tempUrlKey = [] then env.accountKey
              else conf.tempUrlKey) = []
          · rw [swiftTempUrl_eq_of_no_key env conf info cache imageId
              hval hid hb hep hk]
            exact fun h => Err.noConfusion (Except.error.inj h)
          · rw [swiftTempUrl_eq_generate env conf info cache imageId
              hval hid hb hep hk]
            exact generateTempUrl_result_ne_error _ _ _ _ _ _ _ _ _ _
      refine ⟨⟨fun h => absurd h hne, fun hall => ?_⟩, fun h => absurd h hne⟩
      have hc := hall imageId rfl
      rw [hb] at hc
      cases hc

/-- Witness for C9: image info without an id raises `ImageUnacceptable`
without signing. -/
theorem swiftTempUrl_image_unacceptable_witness :
    (swiftTempUrl envA confA ⟨none⟩ []).result =
      Except.error Err.imageUnacceptable ∧
    (swiftTempUrl envA confA ⟨none⟩ []).signCalled = false := by
  have h := swiftTempUrl_image_unacceptable envA confA ⟨none⟩ [] (by decide)
  have hres := h.1.mpr (fun i hi => by cases hi)
  exact ⟨hres, h.2 hres⟩

/-- C7: with validation and the id check passed, a non-resolvable endpoint
(neither configured nor in the catalog) raises `MissingParameterValue`
regardless of the key, and a non-resolvable key (neither configured nor in
the account metadata) raises `MissingParameterValue` when the endpoint is
present; neither path invokes the signing primitive. -/
theorem swiftTempUrl_missing_credential (env : Env) (conf : Conf)
    (info : ImageInfo) (cache : Cache) (imageId : List Char)
    (hval : validateTempUrlConfig conf = none)
    (hid : info.id = some imageId)
    (huuid : env.isUuidLike imageId = true) :
    ((if conf.endpointUrl = [] then env.catalogEndpoint
        else conf.endpointUrl) = [] →
      (swiftTempUrl env conf info cache).result =
        Except.error Err.missingParameterValue ∧
      (swiftTempUrl env conf info cache).signCalled = false) ∧
    ((if conf.endpointUrl = [] then env.catalogEndpoint
        else conf.endpointUrl) ≠ [] →
      (if conf.tempUrlKey = [] then env.accountKey
        else conf.tempUrlKey) = [] →
      (swiftTempUrl env conf info cache).result =
        Except.error Err.missingParameterValue ∧
      (swiftTempUrl env conf info cache).signCalled = false) := by
  constructor
  · intro hep
    rw [swiftTempUrl_eq_of_no_endpoint env conf info cache imageId
      hval hid huuid hep]
    exact ⟨rfl, rfl⟩
  · intro hep hk
    rw [swiftTempUrl_eq_of_no_key env conf info cache imageId
      hval hid huuid hep hk]
    exact ⟨rfl, rfl⟩

/-- Witness for C7: missing endpoint with key present, and missing key with
endpoint present, each raise `MissingParameterValue`. -/
theorem swiftTempUrl_missing_credential_witness :
    ((swiftTempUrl envA confNoEndpoint ⟨some "i".data⟩ []).result =
        Except.error Err.missingParameterValue ∧
      (swiftTempUrl envA confNoEndpoint ⟨some "i".data⟩ []).signCalled =
        false) ∧
    ((swiftTempUrl envA confNoKey ⟨some "i".data⟩ []).result =
        Except.error Err.missingParameterValue ∧
      (swiftTempUrl envA confNoKey ⟨some "i".data⟩ []).signCalled = false) :=
  ⟨(swiftTempUrl_missing_credential envA confNoEndpoint ⟨some "i".data⟩ []
      "i".data (by decide) rfl (by decide)).1 (by decide),
   (swiftTempUrl_missing_credential envA confNoKey ⟨some "i".data⟩ []
      "i".data (by decide) rfl (by decide)).2 (by decide) (by decide)⟩

theorem generateTempUrl_hit (env : Env) (conf : Conf) (path : List Char)
    (seconds : Int) (key method endpoint imageId : List Char)
    (cache : Cache) (e : Entry) (hc : conf.cacheEnabled = true)
    (hl : cacheLookup (evictExpired env.now conf.startDelay cache) imageId =
      some e) :
    generateTempUrl env conf path seconds key method endpoint imageId cache =
      ⟨Except.ok e.url, evictExpired env.now conf.startDelay cache,
        false⟩ := by
  unfold generateTempUrl
  rw [hc, if_pos rfl]
  simp only [hl]

theorem generateTempUrl_miss (env : Env) (conf : Conf) (path : List Char)
    (seconds : Int) (key method endpoint imageId : List Char)
    (cache : Cache) (hc : conf.cacheEnabled = true)
    (hl : cacheLookup (evictExpired env.now conf.startDelay cache) imageId =
      none) :
    generateTempUrl env conf path seconds key method endpoint imageId cache =
      ⟨Except.ok (endpoint ++ (env.sign path seconds key method).path),
        cacheStore imageId
          ⟨endpoint ++ (env.sign path seconds key method).path,
            (env.sign path seconds key method).tempUrlExpires⟩
          (evictExpired env.now conf.startDelay cache),
        true⟩ := by
  unfold generateTempUrl
  rw [hc, if_pos rfl]
  simp only [hl]

/-- C5: given a cache-enabled call whose preliminary checks pass and a
cached entry for the image id whose expiry is still beyond
`now + expected start delay` (the request arrives before
`expiresAt - expectedStartDelay` has elapsed), `swift_temp_url` returns
exactly the cached URL, does not invoke the signing primitive, and leaves
the cached entry for that id unchanged. -/
theorem swiftTempUrl_cache_reuse (env : Env) (conf : Conf)
    (info : ImageInfo) (cache : Cache) (imageId : List Char) (e : Entry)
    (hcache : conf.cacheEnabled = true)
    (hval : validateTempUrlConfig conf = none)
    (hid : info.id = some imageId)
    (huuid : env.isUuidLike imageId = true)
    (hep : (if conf.endpointUrl = [] then env.catalogEndpoint
      else conf.endpointUrl) ≠ [])
    (hkey : (if conf.tempUrlKey = [] then env.accountKey
      else conf.tempUrlKey) ≠ [])
    (he : cacheLookup cache imageId = some e)
    (hlive : env.now < e.expiresAt - conf.startDelay) :
    (swiftTempUrl env conf info cache).result = Except.ok e.url ∧
    (swiftTempUrl env conf info cache).signCalled = false ∧
    cacheLookup (swiftTempUrl env conf info cache).cache imageId = some e := by
  have hl : cacheLookup (evictExpired env.now conf.startDelay cache) imageId =
      some e :=
    lookup_evict_live env.now conf.startDelay cache imageId e he (by omega)
  rw [swiftTempUrl_eq_generate env conf info cache imageId hval hid huuid
    hep hkey]
  rw [generateTempUrl_hit _ _ _ _ _ _ _ _ _ e hcache hl]
  exact ⟨rfl, rfl, hl⟩

/-- Witness for C5: a second call for an id cached with distant expiry
returns the cached URL without a new sign call. -/
theorem swiftTempUrl_cache_reuse_witness :
    (swiftTempUrl envA confA ⟨some "i".data⟩
        [("i".data, ⟨"u".data, 2000⟩)]).result = Except.ok "u".data ∧
    (swiftTempUrl envA confA ⟨some "i".data⟩
        [("i".data, ⟨"u".data, 2000⟩)]).signCalled = false ∧
    cacheLookup (swiftTempUrl envA confA ⟨some "i".data⟩
        [("i".data, ⟨"u".data, 2000⟩)]).cache "i".data =
      some ⟨"u".data, 2000⟩ :=
  swiftTempUrl_cache_reuse envA confA ⟨some "i".data⟩
    [("i".data, ⟨"u".data, 2000⟩)] "i".data ⟨"u".data, 2000⟩
    rfl (by decide) rfl rfl (by decide) (by decide) (by decide) (by decide)

/-- C1 fails as stated: with `now = 1000` and start delay 60, a cached
entry whose expiry 1060 is not strictly greater than `now + delay` is still
returned from the cache (no eviction, no fresh sign call), because the code
evicts only entries with `url_expires_at < now + delay`. -/
theorem swiftTempUrl_strict_expiry_counterexample :
    ¬(1060 > envA.now + confA.startDelay) ∧
    (swiftTempUrl envA confA ⟨some "i".data⟩
        [("i".data, ⟨"u".data, 1060⟩)]).result = Except.ok "u".data ∧
    (swiftTempUrl envA confA ⟨some "i".data⟩
        [("i".data, ⟨"u".data, 1060⟩)]).signCalled = false ∧
    cacheLookup (swiftTempUrl envA confA ⟨some "i".data⟩
        [("i".data, ⟨"u".data, 1060⟩)]).cache "i".data =
      some ⟨"u".data, 1060⟩ := by decide

/-- C1 (amended): a cached entry is used exactly while its expiry is at
least `now + expected start delay` (the boundary instant still hits); once
the expiry falls strictly below `now + delay`, i.e. the request arrives
strictly after `expiresAt - expectedStartDelay`, the entry is evicted and a
fresh sign call issues a replacement entry expiring at `now + duration`. -/
theorem swiftTempUrl_entry_use_boundary (env : Env) (conf : Conf)
    (info : ImageInfo) (cache : Cache) (imageId : List Char) (e : Entry)
    (hsign : ∀ pa s k m, (env.sign pa s k m).tempUrlExpires = env.now + s)
    (hcache : conf.cacheEnabled = true)
    (hval : validateTempUrlConfig conf = none)
    (hid : info.id = some imageId)
    (huuid : env.isUuidLike imageId = true)
    (hep : (if conf.endpointUrl = [] then env.catalogEndpoint
      else conf.endpointUrl) ≠ [])
    (hkey : (if conf.tempUrlKey = [] then env.accountKey
      else conf.tempUrlKey) ≠ [])
    (hnodup : (cache.map Prod.fst).Nodup)
    (he : cacheLookup cache imageId = some e) :
    (env.now + conf.startDelay ≤ e.expiresAt →
      (swiftTempUrl env conf info cache).result = Except.ok e.url ∧
      (swiftTempUrl env conf info cache).signCalled = false) ∧
    (e.expiresAt < env.now + conf.startDelay →
      (swiftTempUrl env conf info cache).signCalled = true ∧
      ∃ e2, cacheLookup (swiftTempUrl env conf info cache).cache imageId =
          some e2 ∧
        e2.expiresAt = env.now + conf.duration ∧
        (swiftTempUrl env conf info cache).result = Except.ok e2.url ∧
        e ≠ e2) := by
  rw [swiftTempUrl_eq_generate env conf info cache imageId hval hid huuid
    hep hkey]
  constructor
  · intro hlive
    have hl := lookup_evict_live env.now conf.startDelay cache imageId e
      he hlive
    rw [generateTempUrl_hit _ _ _ _ _ _ _ _ _ e hcache hl]
    exact ⟨rfl, rfl⟩
  · intro hstale
    have hl := lookup_evict_stale env.now conf.startDelay cache imageId e
      hnodup he hstale
    rw [generateTempUrl_miss _ _ _ _ _ _ _ _ _ hcache hl]
    refine ⟨rfl, _, lookup_store_self _ _ _, hsign _ _ _ _, rfl, ?_⟩
    intro hEq
    have hdur : conf.startDelay ≤ conf.duration :=
      ((validate_none_iff conf).mp hval).1
    have h2 : e.expiresAt = env.now + conf.duration := by
      rw [hEq]
      exact hsign _ _ _ _
    omega

/-- Witness for C1 (amended): a boundary entry (expiry = now + delay) is
served from the cache, and a stale entry is replaced by a freshly signed
one expiring at now + duration. -/
theorem swiftTempUrl_entry_use_boundary_witness :
    ((swiftTempUrl envA confA ⟨some "i".data⟩
        [("i".data, ⟨"u".data, 1060⟩)]).result = Except.ok "u".data ∧
      (swiftTempUrl envA confA ⟨some "i".data⟩
        [("i".data, ⟨"u".data, 1060⟩)]).signCalled = false) ∧
    ((swiftTempUrl envA confA ⟨some "i".data⟩
        [("i".data, ⟨"u".data, 100⟩)]).signCalled = true ∧
      ∃ e2, cacheLookup (swiftTempUrl envA confA ⟨some "i".data⟩
          [("i".data, ⟨"u".data, 100⟩)]).cache "i".data = some e2 ∧
        e2.expiresAt = envA.now + confA.duration ∧
        (swiftTempUrl envA confA ⟨some "i".data⟩
          [("i".data, ⟨"u".data, 100⟩)]).result = Except.ok e2.url ∧
        (⟨"u".data, 100⟩ : Entry) ≠ e2) :=
  ⟨(swiftTempUrl_entry_use_boundary envA confA ⟨some "i".data⟩
      [("i".data, ⟨"u".data, 1060⟩)] "i".data ⟨"u".data, 1060⟩
      (fun pa s k m => rfl) rfl (by decide) rfl rfl (by decide) (by decide)
      (by decide) (by decide)).1 (by decide),
   (swiftTempUrl_entry_use_boundary envA confA ⟨some "i".data⟩
      [("i".data, ⟨"u".data, 100⟩)] "i".data ⟨"u".data, 100⟩
      (fun pa s k m => rfl) rfl (by decide) rfl rfl (by decide) (by decide)
      (by decide) (by decide)).2 (by decide)⟩

/-- C4 fails as stated: a cache-enabled call that raises (here a duration
below the start delay) performs no eviction, so an entry with
`expiresAt < now + expectedStartDelay` survives the call. -/
theorem swiftTempUrl_stale_after_failure_counterexample :
    confShort.cacheEnabled = true ∧
    (swiftTempUrl envA confShort ⟨some "i".data⟩
        [("i".data, ⟨"u".data, 0⟩)]).cache = [("i".data, ⟨"u".data, 0⟩)] ∧
    (0 : Int) < envA.now + confShort.startDelay := by decide

/-- C4 (amended): after any cache-enabled call that returns a URL (rather
than raising), no entry with `expiresAt < now + expectedStartDelay`
remains: surviving old entries were kept by the eviction scan and a newly
inserted entry expires at `now + duration` with `duration >= delay`. -/
theorem swiftTempUrl_no_stale_after_success (env : Env) (conf : Conf)
    (info : ImageInfo) (cache : Cache)
    (hsign : ∀ pa s k m, (env.sign pa s k m).tempUrlExpires = env.now + s)
    (hcache : conf.cacheEnabled = true)
    (hok : ∃ u, (swiftTempUrl env conf info cache).result = Except.ok u) :
    ∀ pr ∈ (swiftTempUrl env conf info cache).cache,
      env.now + conf.startDelay ≤ pr.2.expiresAt := by
  obtain ⟨u, hu⟩ := hok
  cases hv : validateTempUrlConfig conf with
  | some err =>
    rw [swiftTempUrl_eq_of_validate_error env conf info cache err hv] at hu
    exact Except.noConfusion hu
  | none =>
    cases hid : info.id with
    | none =>
      rw [swiftTempUrl_eq_of_no_id env conf info cache hv hid] at hu
      exact Except.noConfusion hu
    | some imageId =>
      cases hb : env.isUuidLike imageId with
      | false =>
        rw [swiftTempUrl_eq_of_bad_uuid env conf info cache imageId
          hv hid hb] at hu
        exact Except.noConfusion hu
      | true =>
        by_cases hep : (if conf.endpointUrl = [] then env.catalogEndpoint
            else conf.endpointUrl) = []
        · rw [swiftTempUrl_eq_of_no_endpoint env conf info cache imageId
            hv hid hb hep] at hu
          exact Except.noConfusion hu
        · by_cases hk : (if conf.tempUrlKey = [] then env.accountKey
              else conf.tempUrlKey) = []
          · rw [swiftTempUrl_eq_of_no_key env conf info cache imageId
              hv hid hb hep hk] at hu
            exact Except.noConfusion hu
          · rw [swiftTempUrl_eq_generate env conf info cache imageId
              hv hid hb hep hk]
            have hdur : conf.startDelay ≤ conf.duration :=
              ((validate_none_iff conf).mp hv).1
            cases hl : cacheLookup
                (evictExpired env.now conf.startDelay cache) imageId with
            | some e =>
              rw [generateTempUrl_hit _ _ _ _ _ _ _ _ _ e hcache hl]
              intro pr hpr
              exact mem_evict _ _ _ hpr
            | none =>
              rw [generateTempUrl_miss _ _ _ _ _ _ _ _ _ hcache hl]
              intro pr hpr
              unfold cacheStore at hpr
              rcases List.mem_append.mp hpr with h2 | h2
              · exact mem_evict _ _ _ (List.mem_filter.mp h2).1
              · have h3 := List.mem_singleton.mp h2
                rw [h3]
                have h4 := hsign ('/' :: conf.apiVersion ++ '/' ::
                  (if conf.account = [] then "AUTH_".data ++ env.projectId
                    else conf.account) ++
                  '/' :: getSwiftContainer conf imageId ++ '/' :: imageId)
                  conf.duration
                  (if conf.tempUrlKey = [] then env.accountKey
                    else conf.tempUrlKey) "GET".data
                simp only [h4]
                omega

/-- Witness for C4 (amended): after a successful cache-enabled call, the
surviving distant-expiry entry indeed satisfies the bound. -/
theorem swiftTempUrl_no_stale_after_success_witness :
    envA.now + confA.startDelay ≤
      (("j".data, (⟨"w".data, 5000⟩ : Entry))).2.expiresAt :=
  swiftTempUrl_no_stale_after_success envA confA ⟨some "i".data⟩
    [("i".data, ⟨"u".data, 100⟩), ("j".data, ⟨"w".data, 5000⟩)]
    (fun pa s k m => rfl) rfl ⟨"http://e/v1/acct/c/i?q".data, by decide⟩
    ("j".data, ⟨"w".data, 5000⟩) (by decide)

theorem strip_concat_core (base t : List Char)
    (hsl : ∀ c ∈ t, c ≠ '/') :
    ((base ++ "/v1/AUTH_".data ++ t).reverse.takeWhile
        fun c => decide (c ≠ '/')) =
      t.reverse ++ ['_', 'H', 'T', 'U', 'A'] ∧
    ((base ++ "/v1/AUTH_".data ++ t).reverse.dropWhile
        fun c => decide (c ≠ '/')) =
      ['/', '1', 'v', '/'] ++ base.reverse := by
  have hrev : (base ++ "/v1/AUTH_".data ++ t).reverse =
      (t.reverse ++ ['_', 'H', 'T', 'U', 'A']) ++
        (['/', '1', 'v', '/'] ++ base.reverse) := by
    rw [List.reverse_append, List.reverse_append]
    rw [show ("/v1/AUTH_".data).reverse =
      ['_', 'H', 'T', 'U', 'A'] ++ ['/', '1', 'v', '/'] from rfl]
    simp [List.append_assoc]
  have hall : ∀ a ∈ t.reverse ++ ['_', 'H', 'T', 'U', 'A'],
      (fun c => decide (c ≠ '/')) a = true := by
    intro a ha
    rcases List.mem_append.mp ha with h | h
    · exact decide_eq_true (hsl a (List.mem_reverse.mp h))
    · rcases h with _ | ⟨_, _ | ⟨_, _ | ⟨_, _ | ⟨_, _ | ⟨_, h⟩⟩⟩⟩⟩ <;>
        first
          | rfl
          | cases h
  constructor
  · rw [hrev, List.takeWhile_append_of_pos hall]
    have h0 : List.takeWhile (fun c => decide (c ≠ '/'))
        (['/', '1', 'v', '/'] ++ base.reverse) = [] := by
      rw [show (['/', '1', 'v', '/'] : List Char) ++ base.reverse =
        '/' :: (['1', 'v', '/'] ++ base.reverse) from rfl]
      rw [List.takeWhile_cons]
      rfl
    rw [h0, List.append_nil]
  · rw [hrev, List.dropWhile_append_of_pos hall]
    rw [show (['/', '1', 'v', '/'] : List Char) ++ base.reverse =
      '/' :: (['1', 'v', '/'] ++ base.reverse) from rfl]
    rw [List.dropWhile_cons]
    rfl

theorem stripTenantSuffix_concat (base t : List Char) (ht : t ≠ [])
    (hsl : ∀ c ∈ t, c ≠ '/') :
    stripTenantSuffix (base ++ "/v1/AUTH_".data ++ t) = base := by
  obtain ⟨htake, hdrop⟩ := strip_concat_core base t hsl
  have hlast : ¬ (base ++ "/v1/AUTH_".data ++ t).getLast? = some '/' := by
    rw [List.getLast?_append, List.getLast?_eq_getLast t ht]
    intro h
    rw [Option.or] at h
    injection h with h2
    exact hsl _ (List.getLast_mem ht) h2
  simp only [stripTenantSuffix]
  rw [if_neg hlast, htake, hdrop]
  rw [if_pos ?hcond]
  case hcond =>
    refine ⟨?_, ?_, ?_⟩
    · rw [List.length_append, List.length_reverse]
      have := List.length_pos.mpr ht
      simp only [List.length_cons]
      omega
    · rw [List.reverse_append, List.reverse_reverse]
      rw [show (['_', 'H', 'T', 'U', 'A'] : List Char).reverse =
        "AUTH_".data from rfl]
      exact List.take_left' rfl
    · exact List.take_left' rfl
  rw [List.drop_left' (by rfl : (['/', '1', 'v', '/'] : List Char).length = 4)]
  exact List.reverse_reverse base

theorem stripTenantSuffix_concat_slash (base t : List Char) (ht : t ≠ [])
    (hsl : ∀ c ∈ t, c ≠ '/') :
    stripTenantSuffix (base ++ "/v1/AUTH_".data ++ t ++ ['/']) = base := by
  obtain ⟨htake, hdrop⟩ := strip_concat_core base t hsl
  have hlast : (base ++ "/v1/AUTH_".data ++ t ++ ['/']).getLast? =
      some '/' := List.getLast?_concat _
  simp only [stripTenantSuffix]
  rw [if_pos hlast, List.dropLast_concat, htake, hdrop]
  rw [if_pos ?hcond]
  case hcond =>
    refine ⟨?_, ?_, ?_⟩
    · rw [List.length_append, List.length_reverse]
      have := List.length_pos.mpr ht
      simp only [List.length_cons]
      omega
    · rw [List.reverse_append, List.reverse_reverse]
      rw [show (['_', 'H', 'T', 'U', 'A'] : List Char).reverse =
        "AUTH_".data from rfl]
      exact List.take_left' rfl
    · exact List.take_left' rfl
  rw [List.drop_left' (by rfl : (['/', '1', 'v', '/'] : List Char).length = 4)]
  exact List.reverse_reverse base

theorem strip_cases_core (cs1 : List Char)
    (hc : 5 < (cs1.reverse.takeWhile fun c => decide (c ≠ '/')).length ∧
      (cs1.reverse.takeWhile fun c => decide (c ≠ '/')).reverse.take 5 =
        "AUTH_".data ∧
      (cs1.reverse.dropWhile fun c => decide (c ≠ '/')).take 4 =
        ['/', '1', 'v', '/']) :
    ∃ u, u ≠ [] ∧ (∀ c ∈ u, c ≠ '/') ∧
      cs1 = ((cs1.reverse.dropWhile fun c => decide (c ≠ '/')).drop
          4).reverse ++ "/v1/AUTH_".data ++ u := by
  obtain ⟨h1, h2, h3⟩ := hc
  refine ⟨(cs1.reverse.takeWhile fun c => decide (c ≠ '/')).reverse.drop 5,
    ?_, ?_, ?_⟩
  · intro hnil
    have hlen : ((cs1.reverse.takeWhile fun c =>
        decide (c ≠ '/')).reverse.drop 5).length =
        (cs1.reverse.takeWhile fun c => decide (c ≠ '/')).length - 5 := by
      rw [List.length_drop, List.length_reverse]
    rw [hnil] at hlen
    simp only [List.length_nil] at hlen
    omega
  · intro c hcm
    have hcm2 := List.mem_reverse.mp (List.mem_of_mem_drop hcm)
    have hp := List.mem_takeWhile_imp hcm2
    simp only [decide_eq_true_eq] at hp
    exact hp
  · have hb : (cs1.reverse.takeWhile fun c => decide (c ≠ '/')) ++
        (cs1.reverse.dropWhile fun c => decide (c ≠ '/')) = cs1.reverse :=
      List.takeWhile_append_dropWhile _ _
    have hrest2 : (cs1.reverse.dropWhile fun c =>
        decide (c ≠ '/')).reverse =
        ((cs1.reverse.dropWhile fun c => decide (c ≠ '/')).drop 4).reverse ++
          ['/', 'v', '1', '/'] := by
      conv_lhs =>
        rw [← List.take_append_drop 4
          (cs1.reverse.dropWhile fun c => decide (c ≠ '/'))]
      rw [List.reverse_append, h3]
      rfl
    have hrun2 : (cs1.reverse.takeWhile fun c =>
        decide (c ≠ '/')).reverse =
        "AUTH_".data ++
          (cs1.reverse.takeWhile fun c => decide (c ≠ '/')).reverse.drop 5 := by
      conv_lhs =>
        rw [← List.take_append_drop 5
          (cs1.reverse.takeWhile fun c => decide (c ≠ '/')).reverse]
      rw [h2]
    conv_lhs => rw [← List.reverse_reverse cs1, ← hb]
    rw [List.reverse_append, hrest2, hrun2]
    simp only [List.append_assoc]
    rfl

theorem stripTenantSuffix_cases (s : List Char) :
    stripTenantSuffix s = s ∨
    ∃ q u, u ≠ [] ∧ (∀ c ∈ u, c ≠ '/') ∧
      (s = q ++ "/v1/AUTH_".data ++ u ∨
        s = q ++ "/v1/AUTH_".data ++ u ++ ['/']) ∧
      stripTenantSuffix s = q := by
  by_cases hlast : s.getLast? = some '/'
  · by_cases hc : 5 < (s.dropLast.reverse.takeWhile fun c =>
        decide (c ≠ '/')).length ∧
        (s.dropLast.reverse.takeWhile fun c =>
          decide (c ≠ '/')).reverse.take 5 = "AUTH_".data ∧
        (s.dropLast.reverse.dropWhile fun c =>
          decide (c ≠ '/')).take 4 = ['/', '1', 'v', '/']
    · right
      obtain ⟨u, hu1, hu2, hu3⟩ := strip_cases_core s.dropLast hc
      have hstrip : stripTenantSuffix s =
          ((s.dropLast.reverse.dropWhile fun c =>
            decide (c ≠ '/')).drop 4).reverse := by
        simp only [stripTenantSuffix]
        rw [if_pos hlast, if_pos hc]
      have hne : s ≠ [] := fun h => by rw [h] at hlast; cases hlast
      have hs : s = s.dropLast ++ ['/'] := by
        have hg := List.getLast?_eq_getLast s hne
        rw [hg] at hlast
        injection hlast with h2
        conv_lhs => rw [← List.dropLast_append_getLast hne]
        rw [h2]
      refine ⟨_, u, hu1, hu2, Or.inr ?_, hstrip⟩
      conv_lhs => rw [hs, hu3]
    · left
      simp only [stripTenantSuffix]
      rw [if_pos hlast, if_neg hc]
  · by_cases hc : 5 < (s.reverse.takeWhile fun c =>
        decide (c ≠ '/')).length ∧
        (s.reverse.takeWhile fun c =>
          decide (c ≠ '/')).reverse.take 5 = "AUTH_".data ∧
        (s.reverse.dropWhile fun c =>
          decide (c ≠ '/')).take 4 = ['/', '1', 'v', '/']
    · right
      obtain ⟨u, hu1, hu2, hu3⟩ := strip_cases_core s hc
      have hstrip : stripTenantSuffix s =
          ((s.reverse.dropWhile fun c => decide (c ≠ '/')).drop 4).reverse := by
        simp only [stripTenantSuffix]
        rw [if_neg hlast, if_pos hc]
      refine ⟨_, u, hu1, hu2, Or.inl ?_, hstrip⟩
      conv_lhs => rw [hu3]
    · left
      simp only [stripTenantSuffix]
      rw [if_neg hlast, if_neg hc]

/-- C10 fails as stated: when the bare endpoint itself ends in a
`/v1/AUTH_<tenant>` segment, the catalog form (bare plus one more such
segment) and the bare endpoint are normalized to different strings, so the
composed URLs differ. -/
theorem stripTenantSuffix_double_counterexample :
    ("http://s/v1/AUTH_a/v1/AUTH_b".data =
      "http://s/v1/AUTH_a".data ++ "/v1/AUTH_".data ++ "b".data) ∧
    "b".data ≠ [] ∧ (∀ c ∈ "b".data, c ≠ '/') ∧
    stripTenantSuffix "http://s/v1/AUTH_a/v1/AUTH_b".data ++
        "/v1/acct/c/o?x".data ≠
      stripTenantSuffix "http://s/v1/AUTH_a".data ++
        "/v1/acct/c/o?x".data := by decide

/-- C10 (amended): `stripTenantSuffix` removes exactly one trailing
`/v1/AUTH_<tenant>` segment (with an optional trailing slash) when present;
every endpoint either is left unchanged or had such a trailing segment; and
the catalog form of an endpoint composes to the same URL as the bare
endpoint provided the bare endpoint is itself left unchanged by the
normalization (it does not also end in such a segment). -/
theorem stripTenantSuffix_normalizes (base t p : List Char)
    (ht : t ≠ []) (hsl : ∀ c ∈ t, c ≠ '/') :
    (stripTenantSuffix (base ++ "/v1/AUTH_".data ++ t) = base ∧
      stripTenantSuffix (base ++ "/v1/AUTH_".data ++ t ++ ['/']) = base) ∧
    (stripTenantSuffix base = base ∨
      ∃ q u, u ≠ [] ∧ (∀ c ∈ u, c ≠ '/') ∧
        (base = q ++ "/v1/AUTH_".data ++ u ∨
          base = q ++ "/v1/AUTH_".data ++ u ++ ['/'])) ∧
    (stripTenantSuffix base = base →
      stripTenantSuffix (base ++ "/v1/AUTH_".data ++ t) ++ p =
        stripTenantSuffix base ++ p) := by
  refine ⟨⟨stripTenantSuffix_concat base t ht hsl,
    stripTenantSuffix_concat_slash base t ht hsl⟩, ?_, ?_⟩
  · rcases stripTenantSuffix_cases base with h | ⟨q, u, h1, h2, h3, _⟩
    · exact Or.inl h
    · exact Or.inr ⟨q, u, h1, h2, h3⟩
  · intro hbase
    rw [stripTenantSuffix_concat base t ht hsl, hbase]

/-- Witness for C10 (amended) at a catalog endpoint with tenant `abc`. -/
theorem stripTenantSuffix_normalizes_witness :
    (stripTenantSuffix ("http://h".data ++ "/v1/AUTH_".data ++ "abc".data) =
      "http://h".data ∧
    stripTenantSuffix
        ("http://h".data ++ "/v1/AUTH_".data ++ "abc".data ++ ['/']) =
      "http://h".data) ∧
    (stripTenantSuffix "http://h".data = "http://h".data →
      stripTenantSuffix ("http://h".data ++ "/v1/AUTH_".data ++ "abc".data) ++
          "/v1/acct/c/o?x".data =
        stripTenantSuffix "http://h".data ++ "/v1/acct/c/o?x".data) :=
  ⟨(stripTenantSuffix_normalizes "http://h".data "abc".data
      "/v1/acct/c/o?x".data (by decide) (by decide)).1,
   (stripTenantSuffix_normalizes "http://h".data "abc".data
      "/v1/acct/c/o?x".data (by decide) (by decide)).2.2⟩

end Ironic
